import Mathlib

/-!
Verification of the log sequencer (`log/sequencer.go`).

The sequencer is embedded shallowly: every storage-transaction operation is a
field of an environment record returning `Except`, and the sequencer functions
`SequenceBatch` / `SignRoot` are pure functions from that environment to an
outcome paired with a trace of the transaction-level events they performed
(rollback, commit attempts, writes).  The compact Merkle tree and the node-id
constructor live outside the given source tree, so they are modelled from the
specification (sections 4.B and 4.C); each such definition says so in its doc
comment.
-/

namespace Trillian

/-- Byte strings (Go `[]byte`, `trillian.Hash`) are modelled as lists of bytes. -/
abbrev Hash := List Nat

/-- Errors produced by storage, by node-id construction, by signing, or by the
sequencer itself.  Environment-chosen errors carry an arbitrary code. -/
inductive SeqError where
  | storage (code : Nat)
  | nodeIDFail (code : Nat)
  | missingNode (depth : Nat) (index : Int)
  | revisionConflict (got expected : Int)
  | corruptState
  deriving DecidableEq, Repr

/-- The tree hasher consumed by the sequencer: `hash_children` and the root of
the empty tree (spec section 4.A).  Kept abstract as function fields. -/
structure TreeHasher where
  hashChildren : Hash → Hash → Hash
  emptyRoot : Hash

/-- A queued or sequenced leaf (`trillian.LogLeaf`), restricted to the fields
the sequencer reads or writes. -/
structure LogLeaf where
  leafHash : Hash
  sequenceNumber : Int
  deriving DecidableEq, Repr

/-- A signed log root / STH (`trillian.SignedLogRoot`). The signature is an
opaque token. -/
structure SignedLogRoot where
  logId : Int
  rootHash : Hash
  timestampNanos : Int
  treeSize : Int
  treeRevision : Int
  signature : Option Nat
  deriving DecidableEq, Repr

/-- A storage node (`storage.Node`): id, hash, and the revision stamped on it
before writing.  A node id is the pair (depth, horizontal index). -/
structure Node where
  nodeID : Nat × Int
  hash : Hash
  nodeRevision : Int
  deriving DecidableEq, Repr

/-- Modelled from the spec: section 4.B, the compact Merkle tree
(`merkle.CompactMerkleTree`, not under the given source tree).  `spine` is
indexed by level; a level holds `some` hash exactly when the corresponding bit
of `size` is set. -/
structure CompactMerkleTree where
  size : Nat
  spine : List (Option Hash)
  deriving DecidableEq, Repr

/-- Modelled from the spec: `new_empty()` of section 4.B
(`merkle.NewCompactMerkleTree`). -/
def NewCompactMerkleTree : CompactMerkleTree := { size := 0, spine := [] }

/-- Modelled from the spec: the combining loop of `append` in section 4.B.
`level` is the current level of `carry`, `pos` its horizontal index at that
level; while the slot at the current level is occupied the carry is combined
with it and the combined hash is emitted with its (depth, index). -/
def pushCarry (hc : Hash → Hash → Hash) :
    List (Option Hash) → Hash → Nat → Nat →
    List (Option Hash) × List (Nat × Int × Hash)
  | [], carry, _, _ => ([some carry], [])
  | none :: rest, carry, _, _ => (some carry :: rest, [])
  | some l :: rest, carry, level, pos =>
      let c := hc l carry
      let r := pushCarry hc rest c (level + 1) (pos / 2)
      (none :: r.1, (level + 1, ((pos / 2 : Nat) : Int), c) :: r.2)

/-- Modelled from the spec: `append` of section 4.B
(`CompactMerkleTree.AddLeafHash`).  Returns the updated tree, the assigned
sequence number (= old size), and the emitted (depth, index, hash) triples. -/
def CompactMerkleTree.addLeafHash (h : TreeHasher) (t : CompactMerkleTree)
    (leafHash : Hash) : CompactMerkleTree × Int × List (Nat × Int × Hash) :=
  let r := pushCarry h.hashChildren t.spine leafHash 0 t.size
  ({ size := t.size + 1, spine := r.1 }, (t.size : Int), r.2)

/-- Modelled from the spec: `current_root()` of section 4.B
(`CompactMerkleTree.CurrentRoot`): fold the occupied spine entries from the
lowest level upward with `hash_children`; the empty spine gives `empty_root`. -/
def CompactMerkleTree.currentRoot (h : TreeHasher) (t : CompactMerkleTree) :
    Hash :=
  match t.spine.reduceOption with
  | [] => h.emptyRoot
  | x :: xs => xs.foldl (fun acc e => h.hashChildren e acc) x

/-- Modelled from the spec: the horizontal index of the spine node of a tree of
`size` leaves at a set-bit `level`: the node covers the leaves just before
offset `size` rounded down to a multiple of 2 ^ level, hence index
`size >>> level − 1`. -/
def spineIndex (size level : Nat) : Int := (((size >>> level) - 1 : Nat) : Int)

/-- Modelled from the spec: the fetching loop of `new_with_state` in section
4.B: for each level with the corresponding bit of `size` set, fetch the spine
hash; any fetch failure aborts hydration. -/
def hydrateLevels (fetch : Nat → Int → Except SeqError Hash) (size : Nat) :
    List Nat → Except SeqError (List (Option Hash))
  | [] => Except.ok []
  | l :: rest =>
    if size.testBit l then
      match fetch l (spineIndex size l) with
      | Except.error e => Except.error e
      | Except.ok h =>
        match hydrateLevels fetch size rest with
        | Except.error e => Except.error e
        | Except.ok tl => Except.ok (some h :: tl)
    else
      match hydrateLevels fetch size rest with
      | Except.error e => Except.error e
      | Except.ok tl => Except.ok (none :: tl)

/-- Modelled from the spec: `new_with_state` of section 4.B
(`merkle.NewCompactMerkleTreeWithState`): hydrate the spine (levels 0..63, the
tree depth bound is 64), then verify that the spine reproduces the stored root
hash, failing with `CORRUPT_STATE` otherwise. -/
def NewCompactMerkleTreeWithState (h : TreeHasher) (size : Nat)
    (fetch : Nat → Int → Except SeqError Hash) (rootHash : Hash) :
    Except SeqError CompactMerkleTree :=
  match hydrateLevels fetch size (List.range 64) with
  | Except.error e => Except.error e
  | Except.ok spine =>
    let t : CompactMerkleTree := { size := size, spine := spine }
    if t.currentRoot h = rootHash then Except.ok t
    else Except.error SeqError.corruptState

/-- One storage transaction (`storage.LogTX`), abstracted as the results its
operations will return.  `writeRevision` is the revision the transaction
writes at. -/
structure TxEnv where
  dequeueLeaves : Int → Except SeqError (List LogLeaf)
  latestSignedLogRoot : Except SeqError SignedLogRoot
  writeRevision : Int
  getMerkleNodes : Int → (Nat × Int) → Except SeqError (List Node)
  updateSequencedLeaves : List LogLeaf → Except SeqError Unit
  setMerkleNodes : List Node → Except SeqError Unit
  storeSignedLogRoot : SignedLogRoot → Except SeqError Unit
  commitResult : Except SeqError Unit

/-- The sequencer's collaborators: hasher, clock, node-id construction
(`storage.NewNodeIDForTreeCoords`, outside the given source tree: it either
fails with an error or yields the canonical id for the coordinates), the
signing pipeline (`Sequencer.signRoot`, collapsing key-manager and signer
failures), and the transactions successive calls to `Begin` will yield:
`beginResult` for the transaction of the entry point itself, `beginResult2`
for the fresh transaction a nested `SignRoot` call opens. -/
structure SeqEnv where
  hasher : TreeHasher
  nowNanos : Int
  mkNodeIDErr : Nat → Int → Option SeqError
  sign : SignedLogRoot → Except SeqError Nat
  beginResult : Except SeqError TxEnv
  beginResult2 : Except SeqError TxEnv

/-- Transaction-level events a sequencer run performs, in order.  Write events
record the arguments and whether the storage call succeeded. -/
inductive Ev where
  | rollback
  | commit (ok : Bool)
  | updateLeaves (leaves : List LogLeaf) (ok : Bool)
  | setNodes (nodes : List Node) (ok : Bool)
  | storeRoot (root : SignedLogRoot) (ok : Bool)
  deriving DecidableEq, Repr

/-- The fetch function `buildMerkleTreeFromStorageAtRoot` passes to tree
hydration: build the node id, call `GetMerkleNodes` for it, and require
exactly one returned node. -/
def fetchHash (env : SeqEnv) (tx : TxEnv) (revision : Int) (depth : Nat)
    (index : Int) : Except SeqError Hash :=
  match env.mkNodeIDErr depth index with
  | some e => Except.error e
  | none =>
    match tx.getMerkleNodes revision (depth, index) with
    | Except.error e => Except.error e
    | Except.ok nodes =>
      match nodes with
      | [n] => Except.ok n.hash
      | _ => Except.error (SeqError.missingNode depth index)

/-- Hydration of the compact tree from storage at a stored root
(`Sequencer.buildMerkleTreeFromStorageAtRoot`). -/
def buildMerkleTreeFromStorageAtRoot (env : SeqEnv) (root : SignedLogRoot)
    (tx : TxEnv) : Except SeqError CompactMerkleTree :=
  NewCompactMerkleTreeWithState env.hasher root.treeSize.toNat
    (fetchHash env tx root.treeRevision) root.rootHash

/-- Initialisation of the compact tree (`Sequencer.initMerkleTreeFromStorage`):
a fresh empty tree when the stored size is zero, hydration otherwise. -/
def initMerkleTreeFromStorage (env : SeqEnv) (currentRoot : SignedLogRoot)
    (tx : TxEnv) : Except SeqError CompactMerkleTree :=
  if currentRoot.treeSize = 0 then Except.ok NewCompactMerkleTree
  else buildMerkleTreeFromStorageAtRoot env currentRoot tx

/-- The node map accumulated during sequencing (Go `map[string]storage.Node`
keyed by the node id), modelled as an association list: only lookup semantics
and the set of values matter. -/
abbrev NodeMap := List ((Nat × Int) × Node)

/-- Map update with Go map semantics: the new binding replaces any previous
binding of the same key. -/
def mapInsert (m : NodeMap) (k : Nat × Int) (v : Node) : NodeMap :=
  (k, v) :: m.filter (fun p => p.1 ≠ k)

/-- Map lookup. -/
def mapLookup (m : NodeMap) (k : Nat × Int) : Option Node :=
  match m with
  | [] => none
  | p :: rest => if p.1 = k then some p.2 else mapLookup rest k

/-- The emit callback body of `Sequencer.sequenceLeaves` applied to the emitted
triples of one `AddLeafHash` call: build the node id and record the node.  A
node-id construction failure makes the callback return early, dropping that
node update without surfacing the error (the callback has no error channel). -/
def bufferEmits (env : SeqEnv) (m : NodeMap) :
    List (Nat × Int × Hash) → NodeMap
  | [] => m
  | (d, i, h) :: rest =>
    match env.mkNodeIDErr d i with
    | some _ => bufferEmits env m rest
    | none =>
      bufferEmits env
        (mapInsert m (d, i) { nodeID := (d, i), hash := h, nodeRevision := 0 })
        rest

/-- The loop of `Sequencer.sequenceLeaves`, with the node map and the sequence
numbers gathered so far as accumulators: append each leaf hash to the tree,
buffer the emitted nodes, store the leaf-level node (surfacing a node-id
failure there), and record the assigned sequence number. -/
def sequenceLeavesAux (env : SeqEnv) :
    CompactMerkleTree → List LogLeaf → NodeMap → List Int →
    Except SeqError (NodeMap × List Int × CompactMerkleTree)
  | mt, [], m, sns => Except.ok (m, sns, mt)
  | mt, leaf :: rest, m, sns =>
    let r := mt.addLeafHash env.hasher leaf.leafHash
    let m1 := bufferEmits env m r.2.2
    match env.mkNodeIDErr 0 r.2.1 with
    | some e => Except.error e
    | none =>
      sequenceLeavesAux env r.1 rest
        (mapInsert m1 (0, r.2.1)
          { nodeID := (0, r.2.1), hash := leaf.leafHash, nodeRevision := 0 })
        (sns ++ [r.2.1])

/-- Assignment of sequence numbers and collection of node updates
(`Sequencer.sequenceLeaves`). -/
def sequenceLeaves (env : SeqEnv) (mt : CompactMerkleTree)
    (leaves : List LogLeaf) :
    Except SeqError (NodeMap × List Int × CompactMerkleTree) :=
  sequenceLeavesAux env mt leaves [] []

/-- Materialisation of the node map with the write revision stamped on every
node (`Sequencer.buildNodesFromNodeMap`); it never fails. -/
def buildNodesFromNodeMap (m : NodeMap) (newVersion : Int) :
    Except SeqError (List Node) :=
  Except.ok (m.map (fun p => { p.2 with nodeRevision := newVersion }))

/-- The assignment loop of `SequenceBatch`: leaf at position i gets the i-th
returned sequence number. -/
def applySequenceNumbers (leaves : List LogLeaf) (sns : List Int) :
    List LogLeaf :=
  List.zipWith (fun l s => { l with sequenceNumber := s }) leaves sns

/-- The new log root `SequenceBatch` and `SignRoot` build before signing. -/
def newSTH (env : SeqEnv) (cur : SignedLogRoot) (mt : CompactMerkleTree)
    (newVersion : Int) : SignedLogRoot :=
  { rootHash := mt.currentRoot env.hasher
    timestampNanos := env.nowNanos
    treeSize := (mt.size : Int)
    logId := cur.logId
    treeRevision := newVersion
    signature := none }

/-- The result of a `SequenceBatch` run: a Go-style pair of integrated-leaf
count and optional error, or the panic the length check raises. -/
inductive Outcome where
  | ret (count : Int) (err : Option SeqError)
  | panicked (numSeq numLeaves : Nat)
  deriving DecidableEq, Repr

/-- Steps of `SequenceBatch` after sequencing succeeded: the length panic
check, then leaf update, node build, node write, sign, STH store, and the
final commit, each failure rolling back. -/
def afterSequencing (env : SeqEnv) (tx : TxEnv) (cur : SignedLogRoot)
    (leaves : List LogLeaf) (r : NodeMap × List Int × CompactMerkleTree) :
    Outcome × List Ev :=
  if r.2.1.length ≠ leaves.length then
    (Outcome.panicked r.2.1.length leaves.length, [])
  else
    let leaves2 := applySequenceNumbers leaves r.2.1
    match tx.updateSequencedLeaves leaves2 with
    | Except.error e =>
      (Outcome.ret 0 (some e), [Ev.updateLeaves leaves2 false, Ev.rollback])
    | Except.ok _ =>
      match buildNodesFromNodeMap r.1 tx.writeRevision with
      | Except.error e =>
        (Outcome.ret 0 (some e), [Ev.updateLeaves leaves2 true, Ev.rollback])
      | Except.ok targetNodes =>
        match tx.setMerkleNodes targetNodes with
        | Except.error e =>
          (Outcome.ret 0 (some e),
            [Ev.updateLeaves leaves2 true, Ev.setNodes targetNodes false,
             Ev.rollback])
        | Except.ok _ =>
          let root0 := newSTH env cur r.2.2 tx.writeRevision
          match env.sign root0 with
          | Except.error e =>
            (Outcome.ret 0 (some e),
              [Ev.updateLeaves leaves2 true, Ev.setNodes targetNodes true,
               Ev.rollback])
          | Except.ok sig =>
            let root1 := { root0 with signature := some sig }
            match tx.storeSignedLogRoot root1 with
            | Except.error e =>
              (Outcome.ret 0 (some e),
                [Ev.updateLeaves leaves2 true, Ev.setNodes targetNodes true,
                 Ev.storeRoot root1 false, Ev.rollback])
            | Except.ok _ =>
              match tx.commitResult with
              | Except.error e =>
                (Outcome.ret 0 (some e),
                  [Ev.updateLeaves leaves2 true, Ev.setNodes targetNodes true,
                   Ev.storeRoot root1 true, Ev.commit false])
              | Except.ok _ =>
                (Outcome.ret (leaves.length : Int) none,
                  [Ev.updateLeaves leaves2 true, Ev.setNodes targetNodes true,
                   Ev.storeRoot root1 true, Ev.commit true])

/-- Steps of `SequenceBatch` on a non-empty batch: hydrate, revision check,
sequence, then `afterSequencing`. -/
def nonEmptyBranch (env : SeqEnv) (tx : TxEnv) (cur : SignedLogRoot)
    (leaves : List LogLeaf) : Outcome × List Ev :=
  match initMerkleTreeFromStorage env cur tx with
  | Except.error e => (Outcome.ret 0 (some e), [Ev.rollback])
  | Except.ok merkleTree =>
    if tx.writeRevision ≠ cur.treeRevision + 1 then
      (Outcome.ret 0
        (some (SeqError.revisionConflict tx.writeRevision
          (cur.treeRevision + 1))), [Ev.rollback])
    else
      match sequenceLeaves env merkleTree leaves with
      | Except.error e => (Outcome.ret 0 (some e), [Ev.rollback])
      | Except.ok r => afterSequencing env tx cur leaves r

/-- Creation of a new signed root without integrating leaves
(`Sequencer.SignRoot`): begin, load latest root, hydrate, build the new STH at
the stored size with the revision bumped by one, sign, store, commit.  Every
failure after begin and before the final commit rolls back; the final commit
error is returned as is. -/
def SignRoot (env : SeqEnv) : Option SeqError × List Ev :=
  match env.beginResult2 with
  | Except.error e => (some e, [])
  | Except.ok tx =>
    match tx.latestSignedLogRoot with
    | Except.error e => (some e, [Ev.rollback])
    | Except.ok currentRoot =>
      match initMerkleTreeFromStorage env currentRoot tx with
      | Except.error e => (some e, [Ev.rollback])
      | Except.ok merkleTree =>
        let root0 := newSTH env currentRoot merkleTree
          (currentRoot.treeRevision + 1)
        match env.sign root0 with
        | Except.error e => (some e, [Ev.rollback])
        | Except.ok sig =>
          let root1 := { root0 with signature := some sig }
          match tx.storeSignedLogRoot root1 with
          | Except.error e => (some e, [Ev.storeRoot root1 false, Ev.rollback])
          | Except.ok _ =>
            match tx.commitResult with
            | Except.error e => (some e, [Ev.storeRoot root1 true, Ev.commit false])
            | Except.ok _ => (none, [Ev.storeRoot root1 true, Ev.commit true])

/-- Integration of one batch of queued leaves (`Sequencer.SequenceBatch`).
On an empty batch the transaction is committed with the commit result
discarded, and `SignRoot` runs in a fresh transaction when the current root
has expired. -/
def SequenceBatch (env : SeqEnv) (limit : Int)
    (expiryFunc : SignedLogRoot → Bool) : Outcome × List Ev :=
  match env.beginResult with
  | Except.error e => (Outcome.ret 0 (some e), [])
  | Except.ok tx =>
    match tx.dequeueLeaves limit with
    | Except.error e => (Outcome.ret 0 (some e), [Ev.rollback])
    | Except.ok leaves =>
      match tx.latestSignedLogRoot with
      | Except.error e => (Outcome.ret 0 (some e), [Ev.rollback])
      | Except.ok currentRoot =>
        if leaves.isEmpty then
          let commitOk :=
            match tx.commitResult with
            | Except.ok _ => true
            | Except.error _ => false
          if expiryFunc currentRoot then
            let r := SignRoot env
            (Outcome.ret 0 r.1, Ev.commit commitOk :: r.2)
          else
            (Outcome.ret 0 none, [Ev.commit commitOk])
        else
          nonEmptyBranch env tx currentRoot leaves

/-- The failure points of `SequenceBatch` between the opening of the
transaction and the final commit, as the specification enumerates them.
`nodeBuild` is listed for completeness although `buildNodesFromNodeMap` cannot
fail. -/
inductive FailPoint where
  | dequeue
  | loadRoot
  | hydrate
  | revCheck
  | sequencing
  | leafUpdate
  | nodeBuild
  | nodeWrite
  | sign
  | sthStore
  deriving DecidableEq, Repr

/-- The failure point a `SequenceBatch` run hits, or `none` when the run
reaches the final commit (or takes the empty-batch branch, or fails to open
the transaction at all). -/
def failPointOf (env : SeqEnv) (limit : Int) : Option FailPoint :=
  match env.beginResult with
  | Except.error _ => none
  | Except.ok tx =>
    match tx.dequeueLeaves limit with
    | Except.error _ => some FailPoint.dequeue
    | Except.ok leaves =>
      match tx.latestSignedLogRoot with
      | Except.error _ => some FailPoint.loadRoot
      | Except.ok cur =>
        if leaves.isEmpty then none
        else
          match initMerkleTreeFromStorage env cur tx with
          | Except.error _ => some FailPoint.hydrate
          | Except.ok mt =>
            if tx.writeRevision ≠ cur.treeRevision + 1 then
              some FailPoint.revCheck
            else
              match sequenceLeaves env mt leaves with
              | Except.error _ => some FailPoint.sequencing
              | Except.ok r =>
                match tx.updateSequencedLeaves
                    (applySequenceNumbers leaves r.2.1) with
                | Except.error _ => some FailPoint.leafUpdate
                | Except.ok _ =>
                  match buildNodesFromNodeMap r.1 tx.writeRevision with
                  | Except.error _ => some FailPoint.nodeBuild
                  | Except.ok targetNodes =>
                    match tx.setMerkleNodes targetNodes with
                    | Except.error _ => some FailPoint.nodeWrite
                    | Except.ok _ =>
                      match env.sign (newSTH env cur r.2.2 tx.writeRevision) with
                      | Except.error _ => some FailPoint.sign
                      | Except.ok sig =>
                        match tx.storeSignedLogRoot
                            { newSTH env cur r.2.2 tx.writeRevision with
                              signature := some sig } with
                        | Except.error _ => some FailPoint.sthStore
                        | Except.ok _ => none

/-- The (depth, index, hash) triples emitted while appending a list of leaves
to a tree, leaf by leaf. -/
def emitsDuring (h : TreeHasher) :
    CompactMerkleTree → List LogLeaf → List (Nat × Int × Hash)
  | _, [] => []
  | mt, leaf :: rest =>
    let r := mt.addLeafHash h leaf.leafHash
    r.2.2 ++ emitsDuring h r.1 rest

/-- A hasher for concrete runs: tag-and-concatenate, injective enough for the
scenarios below. -/
def dummyHasher : TreeHasher :=
  { hashChildren := fun l r => 1 :: (l ++ r), emptyRoot := [0] }

/-- The zero-valued root storage returns for a fresh log. -/
def freshRoot : SignedLogRoot :=
  { logId := 7, rootHash := [], timestampNanos := 0, treeSize := 0
    treeRevision := 0, signature := none }

/-- A queued leaf used in concrete runs. -/
def leafA : LogLeaf := { leafHash := [5], sequenceNumber := -1 }

/-- A second queued leaf used in concrete runs. -/
def leafB : LogLeaf := { leafHash := [6], sequenceNumber := -1 }

/-- A transaction in which every operation succeeds on a fresh log with one
queued leaf. -/
def okTx : TxEnv :=
  { dequeueLeaves := fun _ => Except.ok [leafA]
    latestSignedLogRoot := Except.ok freshRoot
    writeRevision := 1
    getMerkleNodes := fun _ _ => Except.ok []
    updateSequencedLeaves := fun _ => Except.ok ()
    setMerkleNodes := fun _ => Except.ok ()
    storeSignedLogRoot := fun _ => Except.ok ()
    commitResult := Except.ok () }

/-- An environment in which everything succeeds. -/
def okEnv : SeqEnv :=
  { hasher := dummyHasher
    nowNanos := 99
    mkNodeIDErr := fun _ _ => none
    sign := fun _ => Except.ok 7
    beginResult := Except.ok okTx
    beginResult2 := Except.ok okTx }

/-- A transaction whose write revision does not match the root revision. -/
def txRev5 : TxEnv := { okTx with writeRevision := 5 }

/-- An environment hitting the revision-conflict check. -/
def envRev5 : SeqEnv := { okEnv with beginResult := Except.ok txRev5 }

/-- A transaction whose dequeue fails. -/
def txDeqFail : TxEnv :=
  { okTx with dequeueLeaves := fun _ => Except.error (SeqError.storage 1) }

/-- An environment whose dequeue fails. -/
def envDeqFail : SeqEnv := { okEnv with beginResult := Except.ok txDeqFail }

/-- A transaction that dequeues an empty batch and whose commit fails. -/
def txEmptyCommitFail : TxEnv :=
  { okTx with
    dequeueLeaves := fun _ => Except.ok []
    commitResult := Except.error (SeqError.storage 3) }

/-- An environment taking the empty-batch branch with a failing commit. -/
def envEmptyCommitFail : SeqEnv :=
  { okEnv with beginResult := Except.ok txEmptyCommitFail }

/-- A transaction succeeding everywhere except the final commit. -/
def txCommitFail : TxEnv :=
  { okTx with commitResult := Except.error (SeqError.storage 3) }

/-- An environment whose final commit fails on a non-empty batch. -/
def envCommitFail : SeqEnv := { okEnv with beginResult := Except.ok txCommitFail }

/-- An environment in which node-id construction fails for every depth-1
coordinate, as hit by the emit callback during the second append. -/
def envNodeIDFail : SeqEnv :=
  { okEnv with
    mkNodeIDErr := fun d _ =>
      if d = 1 then some (SeqError.nodeIDFail 9) else none }

/-- An environment in which node-id construction fails for depth-0
coordinates, as used for the leaf-level node. -/
def envLeafIDFail : SeqEnv :=
  { okEnv with
    mkNodeIDErr := fun d _ =>
      if d = 0 then some (SeqError.nodeIDFail 4) else none }

/-- A stored root for a one-leaf tree under `dummyHasher`. -/
def rootSize1 : SignedLogRoot :=
  { logId := 7, rootHash := [5], timestampNanos := 0, treeSize := 1
    treeRevision := 3, signature := none }

/-- A transaction serving the one-leaf tree: the single spine node is
returned for any requested id. -/
def txSize1 : TxEnv :=
  { okTx with
    latestSignedLogRoot := Except.ok rootSize1
    writeRevision := 4
    getMerkleNodes := fun _ k =>
      Except.ok [{ nodeID := k, hash := [5], nodeRevision := 0 }] }

/-- An environment hydrating the one-leaf tree successfully. -/
def envSize1 : SeqEnv :=
  { okEnv with
    beginResult := Except.ok txSize1
    beginResult2 := Except.ok txSize1 }

/-- A transaction on the one-leaf tree whose node reads return no rows. -/
def txNoNodes : TxEnv := { txSize1 with getMerkleNodes := fun _ _ => Except.ok [] }

/-- An environment in which hydration fails for lack of nodes. -/
def envNoNodes : SeqEnv :=
  { okEnv with
    beginResult := Except.ok txNoNodes
    beginResult2 := Except.ok txNoNodes }

/-! Helper lemmas about the compact tree, the node map and sequencing. -/

theorem pushCarry_emits_depth (hc : Hash → Hash → Hash) :
    ∀ (spine : List (Option Hash)) (carry : Hash) (level pos : Nat),
      ∀ t ∈ (pushCarry hc spine carry level pos).2, level + 1 ≤ t.1
  | [], _, _, _ => by simp [pushCarry]
  | none :: _, _, _, _ => by simp [pushCarry]
  | some l :: rest, carry, level, pos => by
      intro t ht
      simp only [pushCarry, List.mem_cons] at ht
      rcases ht with h | h
      · subst h; simp
      · have := pushCarry_emits_depth hc rest (hc l carry) (level + 1) (pos / 2) t h
        omega

theorem addLeafHash_emits_depth (h : TreeHasher) (t : CompactMerkleTree)
    (lh : Hash) : ∀ e ∈ (t.addLeafHash h lh).2.2, 1 ≤ e.1 := by
  intro e he
  have := pushCarry_emits_depth h.hashChildren t.spine lh 0 t.size e he
  omega

theorem mapLookup_insert_self (m : NodeMap) (k : Nat × Int) (v : Node) :
    mapLookup (mapInsert m k v) k = some v := by
  simp [mapLookup, mapInsert]

theorem mapLookup_filter_ne (k kk : Nat × Int) (hne : kk ≠ k) :
    ∀ m : NodeMap,
      mapLookup (m.filter (fun p => !decide (p.1 = k))) kk = mapLookup m kk
  | [] => rfl
  | p :: rest => by
    have hkv : ¬(k = kk) := fun hh => hne hh.symm
    by_cases hp : p.1 = k
    · simp [List.filter_cons, hp, mapLookup, hkv,
        mapLookup_filter_ne k kk hne rest]
    · by_cases hq : p.1 = kk
      · simp [List.filter_cons, hp, mapLookup, hq, hne]
      · simp [List.filter_cons, hp, mapLookup, hq,
        mapLookup_filter_ne k kk hne rest]

theorem mapLookup_insert_other (m : NodeMap) (k kk : Nat × Int) (v : Node)
    (hne : kk ≠ k) : mapLookup (mapInsert m k v) kk = mapLookup m kk := by
  have hkv : ¬(k = kk) := fun hh => hne hh.symm
  simp [mapLookup, mapInsert, hkv, mapLookup_filter_ne k kk hne m]

theorem mapLookup_insert_ne_none (m : NodeMap) (k kk : Nat × Int) (v : Node)
    (h : mapLookup m kk ≠ none) : mapLookup (mapInsert m k v) kk ≠ none := by
  by_cases hkk : kk = k
  · subst hkk
    rw [mapLookup_insert_self]
    simp
  · rw [mapLookup_insert_other m k kk v hkk]
    exact h

theorem bufferEmits_ne_none (env : SeqEnv) :
    ∀ (emits : List (Nat × Int × Hash)) (m : NodeMap) (kk : Nat × Int),
      mapLookup m kk ≠ none → mapLookup (bufferEmits env m emits) kk ≠ none
  | [], _, _, h => h
  | (d, i, hh) :: rest, m, kk, h => by
    simp only [bufferEmits]
    rcases hmk : env.mkNodeIDErr d i with _ | e
    · exact bufferEmits_ne_none env rest _ kk
        (mapLookup_insert_ne_none m (d, i) kk _ h)
    · exact bufferEmits_ne_none env rest m kk h

theorem bufferEmits_preserve_ne (env : SeqEnv) (k : Nat × Int) :
    ∀ (emits : List (Nat × Int × Hash)) (m : NodeMap),
      (∀ t ∈ emits, (t.1, t.2.1) ≠ k) →
      mapLookup (bufferEmits env m emits) k = mapLookup m k
  | [], _, _ => rfl
  | (d, i, hh) :: rest, m, hne => by
    simp only [bufferEmits]
    rcases hmk : env.mkNodeIDErr d i with _ | e
    · rw [bufferEmits_preserve_ne env k rest _
        (fun t ht => hne t (List.mem_cons_of_mem _ ht))]
      exact mapLookup_insert_other m (d, i) k _
        (fun hkk => hne (d, i, hh) (List.mem_cons_self _ _) (by simp [hkk.symm]))
    · exact bufferEmits_preserve_ne env k rest m
        (fun t ht => hne t (List.mem_cons_of_mem _ ht))

theorem bufferEmits_mem_ne_none (env : SeqEnv)
    (hok : ∀ d i, env.mkNodeIDErr d i = none) :
    ∀ (emits : List (Nat × Int × Hash)) (m : NodeMap) (t : Nat × Int × Hash),
      t ∈ emits → mapLookup (bufferEmits env m emits) (t.1, t.2.1) ≠ none
  | [], _, t, ht => absurd ht (List.not_mem_nil t)
  | (d, i, hh) :: rest, m, t, ht => by
    simp only [bufferEmits, hok d i]
    rcases List.mem_cons.mp ht with h | h
    · subst h
      apply bufferEmits_ne_none
      rw [mapLookup_insert_self]
      simp
    · exact bufferEmits_mem_ne_none env hok rest _ t h

theorem mapLookup_insert_idOk (m : NodeMap) (k : Nat × Int) (v : Node)
    (hv : v.nodeID = k)
    (hm : ∀ kk nd, mapLookup m kk = some nd → nd.nodeID = kk) :
    ∀ kk nd, mapLookup (mapInsert m k v) kk = some nd → nd.nodeID = kk := by
  intro kk nd h
  by_cases hkk : kk = k
  · subst hkk
    rw [mapLookup_insert_self] at h
    cases h
    exact hv
  · rw [mapLookup_insert_other m k kk v hkk] at h
    exact hm kk nd h

theorem bufferEmits_idOk (env : SeqEnv) :
    ∀ (emits : List (Nat × Int × Hash)) (m : NodeMap),
      (∀ kk nd, mapLookup m kk = some nd → nd.nodeID = kk) →
      ∀ kk nd, mapLookup (bufferEmits env m emits) kk = some nd → nd.nodeID = kk
  | [], _, hm => hm
  | (d, i, hh) :: rest, m, hm => by
    simp only [bufferEmits]
    rcases hmk : env.mkNodeIDErr d i with _ | e
    · exact bufferEmits_idOk env rest _
        (mapLookup_insert_idOk m (d, i) _ rfl hm)
    · exact bufferEmits_idOk env rest m hm

theorem sequenceLeavesAux_idOk (env : SeqEnv) (leaves : List LogLeaf) :
    ∀ (mt : CompactMerkleTree) (m : NodeMap) (sns : List Int)
      (res : NodeMap × List Int × CompactMerkleTree),
      sequenceLeavesAux env mt leaves m sns = Except.ok res →
      (∀ kk nd, mapLookup m kk = some nd → nd.nodeID = kk) →
      ∀ kk nd, mapLookup res.1 kk = some nd → nd.nodeID = kk := by
  induction leaves with
  | nil =>
    intro mt m sns res h hm
    simp only [sequenceLeavesAux, Except.ok.injEq] at h
    subst h
    exact hm
  | cons leaf rest ih =>
    intro mt m sns res h hm
    simp only [sequenceLeavesAux, CompactMerkleTree.addLeafHash] at h
    rcases hmk : env.mkNodeIDErr 0 (mt.size : Int) with _ | e
    · rw [hmk] at h
      exact ih _ _ _ _ h
        (mapLookup_insert_idOk _ _ _ rfl (bufferEmits_idOk env _ m hm))
    · rw [hmk] at h
      exact absurd h (by simp)

theorem sequenceLeavesAux_ne_none (env : SeqEnv) (leaves : List LogLeaf) :
    ∀ (mt : CompactMerkleTree) (m : NodeMap) (sns : List Int)
      (res : NodeMap × List Int × CompactMerkleTree) (kk : Nat × Int),
      sequenceLeavesAux env mt leaves m sns = Except.ok res →
      mapLookup m kk ≠ none → mapLookup res.1 kk ≠ none := by
  induction leaves with
  | nil =>
    intro mt m sns res kk h hm
    simp only [sequenceLeavesAux, Except.ok.injEq] at h
    subst h
    exact hm
  | cons leaf rest ih =>
    intro mt m sns res kk h hm
    simp only [sequenceLeavesAux, CompactMerkleTree.addLeafHash] at h
    rcases hmk : env.mkNodeIDErr 0 (mt.size : Int) with _ | e
    · rw [hmk] at h
      exact ih _ _ _ _ kk h
        (mapLookup_insert_ne_none _ _ kk _ (bufferEmits_ne_none env _ m kk hm))
    · rw [hmk] at h
      exact absurd h (by simp)

theorem sequenceLeavesAux_mem_emits (env : SeqEnv)
    (hok : ∀ d i, env.mkNodeIDErr d i = none) (leaves : List LogLeaf) :
    ∀ (mt : CompactMerkleTree) (m : NodeMap) (sns : List Int)
      (res : NodeMap × List Int × CompactMerkleTree),
      sequenceLeavesAux env mt leaves m sns = Except.ok res →
      ∀ t ∈ emitsDuring env.hasher mt leaves,
        mapLookup res.1 (t.1, t.2.1) ≠ none := by
  induction leaves with
  | nil =>
    intro mt m sns res h t ht
    simp [emitsDuring] at ht
  | cons leaf rest ih =>
    intro mt m sns res h t ht
    simp only [sequenceLeavesAux, CompactMerkleTree.addLeafHash, hok] at h
    simp only [emitsDuring, List.mem_append] at ht
    rcases ht with hth | htt
    · exact sequenceLeavesAux_ne_none env rest _ _ _ res (t.1, t.2.1) h
        (mapLookup_insert_ne_none _ _ _ _
          (bufferEmits_mem_ne_none env hok _ m t hth))
    · exact ih _ _ _ _ h t
        (by simpa [CompactMerkleTree.addLeafHash] using htt)

theorem sequenceLeavesAux_preserve_low (env : SeqEnv) (leaves : List LogLeaf) :
    ∀ (mt : CompactMerkleTree) (m : NodeMap) (sns : List Int)
      (res : NodeMap × List Int × CompactMerkleTree) (j : Int),
      sequenceLeavesAux env mt leaves m sns = Except.ok res →
      j < (mt.size : Int) →
      mapLookup res.1 (0, j) = mapLookup m (0, j) := by
  induction leaves with
  | nil =>
    intro mt m sns res j h _
    simp only [sequenceLeavesAux, Except.ok.injEq] at h
    subst h
    rfl
  | cons leaf rest ih =>
    intro mt m sns res j h hj
    simp only [sequenceLeavesAux, CompactMerkleTree.addLeafHash] at h
    rcases hmk : env.mkNodeIDErr 0 (mt.size : Int) with _ | e
    · rw [hmk] at h
      rw [ih _ _ _ _ j h (by push_cast; omega)]
      rw [mapLookup_insert_other _ _ _ _ (by intro hh; rw [Prod.ext_iff] at hh; omega)]
      exact bufferEmits_preserve_ne env (0, j) _ m
        (fun t ht => by
          have := addLeafHash_emits_depth env.hasher mt leaf.leafHash t
            (by simpa [CompactMerkleTree.addLeafHash] using ht)
          intro hh
          rw [Prod.ext_iff] at hh
          omega)
    · rw [hmk] at h
      exact absurd h (by simp)

theorem sequenceLeavesAux_leaf_lookup (env : SeqEnv) (leaves : List LogLeaf) :
    ∀ (mt : CompactMerkleTree) (m : NodeMap) (sns : List Int)
      (res : NodeMap × List Int × CompactMerkleTree),
      sequenceLeavesAux env mt leaves m sns = Except.ok res →
      ∀ (i : Nat) (hi : i < leaves.length),
        mapLookup res.1 (0, ((mt.size + i : Nat) : Int)) =
          some { nodeID := (0, ((mt.size + i : Nat) : Int))
                 hash := leaves[i].leafHash
                 nodeRevision := 0 } := by
  induction leaves with
  | nil =>
    intro mt m sns res h i hi
    exact absurd hi (by simp)
  | cons leaf rest ih =>
    intro mt m sns res h i hi
    simp only [sequenceLeavesAux, CompactMerkleTree.addLeafHash] at h
    rcases hmk : env.mkNodeIDErr 0 (mt.size : Int) with _ | e
    · rw [hmk] at h
      match i with
      | 0 =>
        have hlow := sequenceLeavesAux_preserve_low env rest _ _ _ res
          ((mt.size : Int)) h (by push_cast; omega)
        simp only [Nat.add_zero] at hlow ⊢
        rw [hlow, mapLookup_insert_self]
        simp
      | Nat.succ ii =>
        have := ih _ _ _ _ h ii (by simpa using Nat.lt_of_succ_lt_succ hi)
        simp only at this
        have hkey : ((mt.size + 1 + ii : Nat) : Int) = ((mt.size + (ii + 1) : Nat) : Int) := by
          omega
        rw [hkey] at this
        simpa using this
    · rw [hmk] at h
      exact absurd h (by simp)

theorem sequenceLeavesAux_ok (env : SeqEnv) (leaves : List LogLeaf) :
    ∀ (mt : CompactMerkleTree) (m : NodeMap) (sns : List Int)
      (res : NodeMap × List Int × CompactMerkleTree),
      sequenceLeavesAux env mt leaves m sns = Except.ok res →
      res.2.1 = sns ++ (List.range leaves.length).map
          (fun i => ((mt.size + i : Nat) : Int)) ∧
      res.2.2.size = mt.size + leaves.length := by
  induction leaves with
  | nil =>
    intro mt m sns res h
    simp only [sequenceLeavesAux, Except.ok.injEq] at h
    subst h
    simp
  | cons leaf rest ih =>
    intro mt m sns res h
    simp only [sequenceLeavesAux, CompactMerkleTree.addLeafHash] at h
    rcases hm : env.mkNodeIDErr 0 (mt.size : Int) with _ | e
    · rw [hm] at h
      have h12 := ih _ _ _ _ h
      have h1 : res.2.1 = sns ++ [(mt.size : Int)] ++
          (List.range rest.length).map
            (fun i => ((mt.size + 1 + i : Nat) : Int)) := by
        simpa using h12.1
      have h2 : res.2.2.size = mt.size + 1 + rest.length := by
        simpa using h12.2
      constructor
      · rw [h1]
        simp only [List.length_cons, List.range_succ_eq_map, List.map_cons,
          List.map_map, List.append_assoc, List.singleton_append]
        refine congrArg (fun l => sns ++ l) ?_
        refine congrArg₂ List.cons (by simp) ?_
        apply List.map_congr_left
        intro a _
        simp only [Function.comp_apply]
        omega
      · rw [h2]
        simp only [List.length_cons]
        omega
    · rw [hm] at h
      exact absurd h (by simp)

theorem sequenceLeaves_ok (env : SeqEnv) (mt : CompactMerkleTree)
    (leaves : List LogLeaf) (res : NodeMap × List Int × CompactMerkleTree)
    (h : sequenceLeaves env mt leaves = Except.ok res) :
    res.2.1 = (List.range leaves.length).map
        (fun i => ((mt.size + i : Nat) : Int)) ∧
    res.2.2.size = mt.size + leaves.length := by
  have := sequenceLeavesAux_ok env leaves mt [] [] res h
  simpa using this

theorem sequenceLeaves_ok_length (env : SeqEnv) (mt : CompactMerkleTree)
    (leaves : List LogLeaf) (res : NodeMap × List Int × CompactMerkleTree)
    (h : sequenceLeaves env mt leaves = Except.ok res) :
    res.2.1.length = leaves.length := by
  rw [(sequenceLeaves_ok env mt leaves res h).1]
  simp

theorem hydrateLevels_ok_fetch (fetch : Nat → Int → Except SeqError Hash)
    (size : Nat) :
    ∀ (lvls : List Nat) (spine : List (Option Hash)),
      hydrateLevels fetch size lvls = Except.ok spine →
      ∀ l ∈ lvls, size.testBit l = true →
        ∃ h, fetch l (spineIndex size l) = Except.ok h
  | [], _, _ => by intro l hl; exact absurd hl (List.not_mem_nil l)
  | lv :: rest, spine, h => by
    intro l hl hbit
    simp only [hydrateLevels] at h
    rcases List.mem_cons.mp hl with heq | hmem
    · subst heq
      rw [if_pos hbit] at h
      rcases hf : fetch l (spineIndex size l) with e | hh
      · rw [hf] at h
        exact absurd h (by simp)
      · exact ⟨hh, rfl⟩
    · by_cases hb : size.testBit lv = true
      · rw [if_pos hb] at h
        rcases hf : fetch lv (spineIndex size lv) with e | hh
        · rw [hf] at h
          exact absurd h (by simp)
        · rw [hf] at h
          rcases hr : hydrateLevels fetch size rest with e2 | tl
          · rw [hr] at h
            exact absurd h (by simp)
          · exact hydrateLevels_ok_fetch fetch size rest tl hr l hmem hbit
      · rw [if_neg hb] at h
        rcases hr : hydrateLevels fetch size rest with e2 | tl
        · rw [hr] at h
          exact absurd h (by simp)
        · exact hydrateLevels_ok_fetch fetch size rest tl hr l hmem hbit

theorem fetchHash_ok (env : SeqEnv) (tx : TxEnv) (rev : Int) (d : Nat) (i : Int)
    (h : Hash) (hf : fetchHash env tx rev d i = Except.ok h) :
    ∃ n, tx.getMerkleNodes rev (d, i) = Except.ok [n] ∧ n.hash = h := by
  simp only [fetchHash] at hf
  rcases hmk : env.mkNodeIDErr d i with _ | e
  · rw [hmk] at hf
    rcases hg : tx.getMerkleNodes rev (d, i) with e | ns
    · rw [hg] at hf
      exact absurd hf (by simp)
    · rw [hg] at hf
      match ns with
      | [] => exact absurd hf (by simp)
      | [n] => exact ⟨n, rfl, by simpa using hf⟩
      | n :: n2 :: rest => exact absurd hf (by simp)
  · rw [hmk] at hf
    exact absurd hf (by simp)

theorem fetchHash_not_one (env : SeqEnv) (tx : TxEnv) (rev : Int) (d : Nat)
    (i : Int) (ns : List Node) (hmk : env.mkNodeIDErr d i = none)
    (hg : tx.getMerkleNodes rev (d, i) = Except.ok ns)
    (hlen : ns.length ≠ 1) :
    fetchHash env tx rev d i = Except.error (SeqError.missingNode d i) := by
  simp only [fetchHash, hmk, hg]
  match ns with
  | [] => rfl
  | [n] => exact absurd rfl hlen
  | n :: n2 :: rest => rfl

theorem buildMerkle_ok_singleton (env : SeqEnv) (root : SignedLogRoot)
    (tx : TxEnv) (mt : CompactMerkleTree)
    (h : buildMerkleTreeFromStorageAtRoot env root tx = Except.ok mt) :
    ∀ l ∈ List.range 64, root.treeSize.toNat.testBit l = true →
      ∃ n, tx.getMerkleNodes root.treeRevision
        (l, spineIndex root.treeSize.toNat l) = Except.ok [n] := by
  intro l hl hbit
  simp only [buildMerkleTreeFromStorageAtRoot, NewCompactMerkleTreeWithState] at h
  rcases hh : hydrateLevels (fetchHash env tx root.treeRevision)
      root.treeSize.toNat (List.range 64) with e | spine
  · rw [hh] at h
    exact absurd h (by simp)
  · have := hydrateLevels_ok_fetch _ _ _ _ hh l hl hbit
    rcases this with ⟨hash, hf⟩
    rcases fetchHash_ok env tx root.treeRevision l _ hash hf with ⟨n, hn, _⟩
    exact ⟨n, hn⟩

/-- C1: a failure of `SequenceBatch` at any of the enumerated points between
the opening of the transaction and the final commit makes the call return an
error after rolling the transaction back as its last transaction-level event,
with no commit ever attempted, so the storage state is unchanged and every
abort path releases the transaction. -/
theorem seqBatch_failure_rolls_back (env : SeqEnv) (limit : Int)
    (f : SignedLogRoot → Bool) (p : FailPoint)
    (h : failPointOf env limit = some p) :
    ∃ e tr, SequenceBatch env limit f = (Outcome.ret 0 (some e), tr) ∧
      tr.getLast? = some Ev.rollback ∧ ∀ b, Ev.commit b ∉ tr := by
  rcases hb : env.beginResult with e | tx
  · simp only [failPointOf, hb] at h
    exact absurd h (by simp)
  · simp only [failPointOf, hb] at h
    rcases hd : tx.dequeueLeaves limit with e | leaves
    · refine ⟨e, [Ev.rollback], ?_, by simp, by simp⟩
      simp [SequenceBatch, hb, hd]
    · simp only [hd] at h
      rcases hr : tx.latestSignedLogRoot with e | cur
      · refine ⟨e, [Ev.rollback], ?_, by simp, by simp⟩
        simp [SequenceBatch, hb, hd, hr]
      · simp only [hr] at h
        cases hemp : leaves.isEmpty with
        | true =>
          simp only [hemp, if_true] at h
          exact absurd h (by simp)
        | false =>
        simp only [hemp, Bool.false_eq_true, if_false] at h
        rcases hmt : initMerkleTreeFromStorage env cur tx with e | mt
        · refine ⟨e, [Ev.rollback], ?_, by simp, by simp⟩
          simp [SequenceBatch, nonEmptyBranch, hb, hd, hr, hemp, hmt]
        · simp only [hmt] at h
          by_cases hrev : tx.writeRevision = cur.treeRevision + 1
          · simp only [hrev, ne_eq, not_true_eq_false, if_false] at h
            rcases hsl : sequenceLeaves env mt leaves with e | r
            · refine ⟨e, [Ev.rollback], ?_, by simp, by simp⟩
              simp [SequenceBatch, nonEmptyBranch, hb, hd, hr, hemp, hmt,
                hrev, hsl]
            · simp only [hsl] at h
              have hlen := sequenceLeaves_ok_length env mt leaves r hsl
              rcases hu : tx.updateSequencedLeaves
                  (applySequenceNumbers leaves r.2.1) with e | u
              · refine ⟨e, [Ev.updateLeaves (applySequenceNumbers leaves r.2.1)
                  false, Ev.rollback], ?_, by simp, by simp⟩
                simp [SequenceBatch, nonEmptyBranch, afterSequencing, hb, hd,
                  hr, hemp, hmt, hrev, hsl, hlen, hu]
              · simp only [hu] at h
                rcases hbn : buildNodesFromNodeMap r.1 (cur.treeRevision + 1)
                    with e | targetNodes
                · exact absurd hbn (by simp [buildNodesFromNodeMap])
                · simp only [hbn] at h
                  rcases hsn : tx.setMerkleNodes targetNodes with e | u2
                  · refine ⟨e, [Ev.updateLeaves
                      (applySequenceNumbers leaves r.2.1) true,
                      Ev.setNodes targetNodes false, Ev.rollback], ?_,
                      by simp, by simp⟩
                    simp [SequenceBatch, nonEmptyBranch, afterSequencing, hb,
                      hd, hr, hemp, hmt, hrev, hsl, hlen, hu, hbn, hsn]
                  · simp only [hsn] at h
                    rcases hsg : env.sign
                        (newSTH env cur r.2.2 (cur.treeRevision + 1))
                        with e | sig
                    · refine ⟨e, [Ev.updateLeaves
                        (applySequenceNumbers leaves r.2.1) true,
                        Ev.setNodes targetNodes true, Ev.rollback], ?_,
                        by simp, by simp⟩
                      simp [SequenceBatch, nonEmptyBranch, afterSequencing,
                        hb, hd, hr, hemp, hmt, hrev, hsl, hlen, hu, hbn, hsn,
                        hsg]
                    · simp only [hsg] at h
                      rcases hst : tx.storeSignedLogRoot
                          { newSTH env cur r.2.2 (cur.treeRevision + 1) with
                            signature := some sig } with e | u3
                      · refine ⟨e, [Ev.updateLeaves
                          (applySequenceNumbers leaves r.2.1) true,
                          Ev.setNodes targetNodes true,
                          Ev.storeRoot { newSTH env cur r.2.2
                            (cur.treeRevision + 1) with
                            signature := some sig } false, Ev.rollback], ?_,
                          by simp, by simp⟩
                        simp [SequenceBatch, nonEmptyBranch, afterSequencing,
                          hb, hd, hr, hemp, hmt, hrev, hsl, hlen, hu, hbn,
                          hsn, hsg, hst]
                      · simp only [hst] at h
                        exact absurd h (by simp)
          · simp only [ne_eq, hrev, not_false_eq_true, if_true] at h
            refine ⟨SeqError.revisionConflict tx.writeRevision
              (cur.treeRevision + 1), [Ev.rollback], ?_, by simp, by simp⟩
            simp [SequenceBatch, nonEmptyBranch, hb, hd, hr, hemp, hmt, hrev]

/-- C4: on a non-empty batch, when the transaction write revision is not the
current root revision plus one, `SequenceBatch` rolls back and returns the
revision-conflict error; its only transaction-level event is the rollback, so
no leaves, nodes or STH are written and no commit is attempted. -/
theorem seqBatch_revision_check (env : SeqEnv) (limit : Int)
    (f : SignedLogRoot → Bool) (tx : TxEnv) (leaves : List LogLeaf)
    (cur : SignedLogRoot) (mt : CompactMerkleTree)
    (hb : env.beginResult = Except.ok tx)
    (hd : tx.dequeueLeaves limit = Except.ok leaves)
    (hne : leaves ≠ [])
    (hr : tx.latestSignedLogRoot = Except.ok cur)
    (hmt : initMerkleTreeFromStorage env cur tx = Except.ok mt)
    (hrev : tx.writeRevision ≠ cur.treeRevision + 1) :
    SequenceBatch env limit f =
      (Outcome.ret 0 (some (SeqError.revisionConflict tx.writeRevision
        (cur.treeRevision + 1))), [Ev.rollback]) := by
  have hemp : leaves.isEmpty = false := by
    cases leaves with
    | nil => exact absurd rfl hne
    | cons a as => rfl
  simp [SequenceBatch, nonEmptyBranch, hb, hd, hr, hemp, hmt, hrev]

/-- C4 witness: a concrete run with write revision 5 against root revision 0
hits the revision check and rolls back. -/
theorem seqBatch_revision_check_witness :
    envRev5.beginResult = Except.ok txRev5 ∧
    txRev5.dequeueLeaves 1 = Except.ok [leafA] ∧
    [leafA] ≠ ([] : List LogLeaf) ∧
    txRev5.latestSignedLogRoot = Except.ok freshRoot ∧
    initMerkleTreeFromStorage envRev5 freshRoot txRev5 =
      Except.ok NewCompactMerkleTree ∧
    txRev5.writeRevision ≠ freshRoot.treeRevision + 1 ∧
    SequenceBatch envRev5 1 (fun _ => false) =
      (Outcome.ret 0 (some (SeqError.revisionConflict 5 1)), [Ev.rollback]) := by
  refine ⟨rfl, rfl, by simp, rfl, rfl, by decide, ?_⟩
  have := seqBatch_revision_check envRev5 1 (fun _ => false) txRev5 [leafA]
    freshRoot NewCompactMerkleTree rfl rfl (by simp) rfl rfl (by decide)
  simpa using this

/-- C2: a successful `SequenceBatch` on a non-empty batch stores an STH whose
log id is the previous root's, whose tree size is the hydrated size plus the
number of dequeued leaves, whose root hash is the compact tree's current root
after the appends, and whose revision is the transaction write revision,
which equals the previous revision plus one; the call returns the number of
dequeued leaves. -/
theorem seqBatch_success_sth (env : SeqEnv) (limit : Int)
    (f : SignedLogRoot → Bool) (tx : TxEnv) (leaves : List LogLeaf)
    (cur : SignedLogRoot) (mt0 : CompactMerkleTree)
    (r : NodeMap × List Int × CompactMerkleTree) (n : Int) (tr : List Ev)
    (hb : env.beginResult = Except.ok tx)
    (hd : tx.dequeueLeaves limit = Except.ok leaves)
    (hne : leaves ≠ [])
    (hr : tx.latestSignedLogRoot = Except.ok cur)
    (hmt : initMerkleTreeFromStorage env cur tx = Except.ok mt0)
    (hsl : sequenceLeaves env mt0 leaves = Except.ok r)
    (hrun : SequenceBatch env limit f = (Outcome.ret n none, tr)) :
    ∃ sth, Ev.storeRoot sth true ∈ tr ∧
      sth.logId = cur.logId ∧
      sth.treeSize = ((mt0.size + leaves.length : Nat) : Int) ∧
      sth.rootHash = r.2.2.currentRoot env.hasher ∧
      sth.treeRevision = tx.writeRevision ∧
      tx.writeRevision = cur.treeRevision + 1 ∧
      n = (leaves.length : Int) := by
  have hemp : leaves.isEmpty = false := by
    cases leaves with
    | nil => exact absurd rfl hne
    | cons a as => rfl
  by_cases hrev : tx.writeRevision = cur.treeRevision + 1
  case neg =>
    simp [SequenceBatch, nonEmptyBranch, hb, hd, hr, hemp, hmt, hrev] at hrun
  case pos =>
    have hrevF : ¬(tx.writeRevision ≠ cur.treeRevision + 1) := by simp [hrev]
    have hlen := sequenceLeaves_ok_length env mt0 leaves r hsl
    rcases hu : tx.updateSequencedLeaves (applySequenceNumbers leaves r.2.1)
        with e | u
    · simp [SequenceBatch, nonEmptyBranch, afterSequencing, hb, hd, hr, hemp,
        hmt, hrevF, hsl, hlen, hu] at hrun
    · rcases hbn : buildNodesFromNodeMap r.1 tx.writeRevision
          with e | targetNodes
      · exact absurd hbn (by simp [buildNodesFromNodeMap])
      · rcases hsn : tx.setMerkleNodes targetNodes with e | u2
        · simp [SequenceBatch, nonEmptyBranch, afterSequencing, hb, hd, hr,
            hemp, hmt, hrevF, hsl, hlen, hu, hbn, hsn] at hrun
        · rcases hsg : env.sign (newSTH env cur r.2.2 tx.writeRevision)
              with e | sig
          · simp [SequenceBatch, nonEmptyBranch, afterSequencing, hb, hd, hr,
              hemp, hmt, hrevF, hsl, hlen, hu, hbn, hsn, hsg] at hrun
          · rcases hst : tx.storeSignedLogRoot
                { newSTH env cur r.2.2 tx.writeRevision with
                  signature := some sig } with e | u3
            · simp [SequenceBatch, nonEmptyBranch, afterSequencing, hb, hd,
                hr, hemp, hmt, hrevF, hsl, hlen, hu, hbn, hsn, hsg, hst]
                at hrun
            · rcases hc : tx.commitResult with e | u4
              · simp [SequenceBatch, nonEmptyBranch, afterSequencing, hb, hd,
                  hr, hemp, hmt, hrevF, hsl, hlen, hu, hbn, hsn, hsg, hst, hc]
                  at hrun
              · have h2 : SequenceBatch env limit f =
                    (Outcome.ret (leaves.length : Int) none,
                     [Ev.updateLeaves (applySequenceNumbers leaves r.2.1) true,
                      Ev.setNodes targetNodes true,
                      Ev.storeRoot { newSTH env cur r.2.2 tx.writeRevision with
                        signature := some sig } true,
                      Ev.commit true]) := by
                  simp [SequenceBatch, nonEmptyBranch, afterSequencing, hb,
                    hd, hr, hemp, hmt, hrevF, hsl, hlen, hu, hbn, hsn, hsg,
                    hst, hc]
                rw [hrun] at h2
                injection h2 with h2a h2b
                injection h2a with h2n h2e
                subst h2b
                refine ⟨{ newSTH env cur r.2.2 tx.writeRevision with
                  signature := some sig }, by simp, by simp [newSTH], ?_,
                  by simp [newSTH], by simp [newSTH], hrev, h2n⟩
                have hsz := (sequenceLeaves_ok env mt0 leaves r hsl).2
                simp [newSTH, hsz]

/-- C2 witness: a concrete fully successful run on a fresh log with one
dequeued leaf stores an STH of size 1 at revision 1 and returns 1. -/
theorem seqBatch_success_sth_witness :
    okEnv.beginResult = Except.ok okTx ∧
    okTx.dequeueLeaves 1 = Except.ok [leafA] ∧
    [leafA] ≠ ([] : List LogLeaf) ∧
    okTx.latestSignedLogRoot = Except.ok freshRoot ∧
    initMerkleTreeFromStorage okEnv freshRoot okTx =
      Except.ok NewCompactMerkleTree ∧
    (∃ r, sequenceLeaves okEnv NewCompactMerkleTree [leafA] = Except.ok r ∧
      ∃ sth, Ev.storeRoot sth true ∈ (SequenceBatch okEnv 1 (fun _ => false)).2 ∧
        sth.logId = freshRoot.logId ∧
        sth.treeSize = 1 ∧
        sth.rootHash = r.2.2.currentRoot okEnv.hasher ∧
        sth.treeRevision = okTx.writeRevision ∧
        okTx.writeRevision = freshRoot.treeRevision + 1) := by
  refine ⟨rfl, rfl, by simp, rfl, rfl, ?_⟩
  refine ⟨([((0, (0 : Int)),
    { nodeID := (0, 0), hash := [5], nodeRevision := 0 })], [(0 : Int)],
    { size := 1, spine := [some [5]] }), rfl, ?_⟩
  have := seqBatch_success_sth okEnv 1 (fun _ => false) okTx [leafA] freshRoot
    NewCompactMerkleTree
    ([((0, (0 : Int)), { nodeID := (0, 0), hash := [5], nodeRevision := 0 })],
      [(0 : Int)], { size := 1, spine := [some [5]] })
    1 (SequenceBatch okEnv 1 (fun _ => false)).2
    rfl rfl (by simp) rfl rfl rfl rfl
  rcases this with ⟨sth, hmem, h1, h2, h3, h4, h5, _⟩
  exact ⟨sth, hmem, h1, by simpa using h2, h3, h4, h5⟩

/-- C3: within one batch the sequence numbers returned by the compact tree
are contiguous starting at the tree size before the batch, and the assignment
loop pairs the i-th dequeued leaf with the i-th returned sequence number. -/
theorem sequenceLeaves_contiguous (env : SeqEnv) (mt : CompactMerkleTree)
    (leaves : List LogLeaf) (r : NodeMap × List Int × CompactMerkleTree)
    (h : sequenceLeaves env mt leaves = Except.ok r) :
    r.2.1 = (List.range leaves.length).map
        (fun i => ((mt.size + i : Nat) : Int)) ∧
    ∀ (i : Nat) (hi : i < leaves.length),
      ∃ hj : i < (applySequenceNumbers leaves r.2.1).length,
        (applySequenceNumbers leaves r.2.1)[i] =
          { leaves[i] with sequenceNumber := ((mt.size + i : Nat) : Int) } := by
  have hsns := (sequenceLeaves_ok env mt leaves r h).1
  refine ⟨hsns, ?_⟩
  intro i hi
  have hlen : (applySequenceNumbers leaves r.2.1).length = leaves.length := by
    simp [applySequenceNumbers, hsns]
  refine ⟨by omega, ?_⟩
  simp [applySequenceNumbers, List.getElem_zipWith, hsns]

/-- C3 witness: sequencing two leaves into a fresh tree assigns the
contiguous numbers 0 and 1 in dequeue order. -/
theorem sequenceLeaves_contiguous_witness :
    sequenceLeaves okEnv NewCompactMerkleTree [leafA, leafB] =
      Except.ok
        ([((0, (1 : Int)), { nodeID := (0, 1), hash := [6], nodeRevision := 0 }),
          ((1, (0 : Int)), { nodeID := (1, 0), hash := [1, 5, 6], nodeRevision := 0 }),
          ((0, (0 : Int)), { nodeID := (0, 0), hash := [5], nodeRevision := 0 })],
         [0, 1], { size := 2, spine := [none, some [1, 5, 6]] }) ∧
    ([(0 : Int), 1] : List Int) = (List.range 2).map
        (fun i => ((NewCompactMerkleTree.size + i : Nat) : Int)) := by
  refine ⟨rfl, ?_⟩
  have := (sequenceLeaves_contiguous okEnv NewCompactMerkleTree [leafA, leafB]
    ([((0, (1 : Int)), { nodeID := (0, 1), hash := [6], nodeRevision := 0 }),
      ((1, (0 : Int)), { nodeID := (1, 0), hash := [1, 5, 6], nodeRevision := 0 }),
      ((0, (0 : Int)), { nodeID := (0, 0), hash := [5], nodeRevision := 0 })],
     [0, 1], { size := 2, spine := [none, some [1, 5, 6]] }) rfl).1
  simpa using this

/-- C9: a sequence-number count that differs from the leaf count makes
`SequenceBatch` panic rather than return an error; `sequenceLeaves` returns
exactly one sequence number per leaf on success, so no run of `SequenceBatch`
ever reaches the panic. -/
theorem seqBatch_panic_unreachable :
    (∀ (env : SeqEnv) (tx : TxEnv) (cur : SignedLogRoot)
       (leaves : List LogLeaf) (r : NodeMap × List Int × CompactMerkleTree),
       r.2.1.length ≠ leaves.length →
       afterSequencing env tx cur leaves r =
         (Outcome.panicked r.2.1.length leaves.length, [])) ∧
    (∀ (env : SeqEnv) (mt : CompactMerkleTree) (leaves : List LogLeaf)
       (r : NodeMap × List Int × CompactMerkleTree),
       sequenceLeaves env mt leaves = Except.ok r →
       r.2.1.length = leaves.length) ∧
    (∀ (env : SeqEnv) (limit : Int) (f : SignedLogRoot → Bool) (a b : Nat),
       (SequenceBatch env limit f).1 ≠ Outcome.panicked a b) := by
  refine ⟨?_, ?_, ?_⟩
  · intro env tx cur leaves r hne
    simp [afterSequencing, hne]
  · intro env mt leaves r h
    exact sequenceLeaves_ok_length env mt leaves r h
  · intro env limit f a b
    rcases hb : env.beginResult with e | tx
    · simp [SequenceBatch, hb]
    · rcases hd : tx.dequeueLeaves limit with e | leaves
      · simp [SequenceBatch, hb, hd]
      · rcases hr : tx.latestSignedLogRoot with e | cur
        · simp [SequenceBatch, hb, hd, hr]
        · cases hemp : leaves.isEmpty with
          | true =>
            cases hf : f cur with
            | true => simp [SequenceBatch, hb, hd, hr, hemp, hf]
            | false => simp [SequenceBatch, hb, hd, hr, hemp, hf]
          | false =>
            rcases hmt : initMerkleTreeFromStorage env cur tx with e | mt
            · simp [SequenceBatch, nonEmptyBranch, hb, hd, hr, hemp, hmt]
            · by_cases hrev : tx.writeRevision = cur.treeRevision + 1
              case neg =>
                simp [SequenceBatch, nonEmptyBranch, hb, hd, hr, hemp, hmt,
                  hrev]
              case pos =>
              have hrevF : ¬(tx.writeRevision ≠ cur.treeRevision + 1) := by
                simp [hrev]
              rcases hsl : sequenceLeaves env mt leaves with e | r
              · simp [SequenceBatch, nonEmptyBranch, hb, hd, hr, hemp, hmt,
                  hrevF, hsl]
              · have hlen := sequenceLeaves_ok_length env mt leaves r hsl
                rcases hu : tx.updateSequencedLeaves
                    (applySequenceNumbers leaves r.2.1) with e | u
                · simp [SequenceBatch, nonEmptyBranch, afterSequencing, hb,
                    hd, hr, hemp, hmt, hrevF, hsl, hlen, hu]
                · rcases hbn : buildNodesFromNodeMap r.1 tx.writeRevision
                      with e | tns
                  · exact absurd hbn (by simp [buildNodesFromNodeMap])
                  · rcases hsn : tx.setMerkleNodes tns with e | u2
                    · simp [SequenceBatch, nonEmptyBranch, afterSequencing,
                        hb, hd, hr, hemp, hmt, hrevF, hsl, hlen, hu, hbn, hsn]
                    · rcases hsg : env.sign
                          (newSTH env cur r.2.2 tx.writeRevision) with e | sig
                      · simp [SequenceBatch, nonEmptyBranch, afterSequencing,
                          hb, hd, hr, hemp, hmt, hrevF, hsl, hlen, hu, hbn,
                          hsn, hsg]
                      · rcases hst : tx.storeSignedLogRoot
                            { newSTH env cur r.2.2 tx.writeRevision with
                              signature := some sig } with e | u3
                        · simp [SequenceBatch, nonEmptyBranch,
                            afterSequencing, hb, hd, hr, hemp, hmt, hrevF,
                            hsl, hlen, hu, hbn, hsn, hsg, hst]
                        · rcases hc : tx.commitResult with e | u4
                          · simp [SequenceBatch, nonEmptyBranch,
                              afterSequencing, hb, hd, hr, hemp, hmt, hrevF,
                              hsl, hlen, hu, hbn, hsn, hsg, hst, hc]
                          · simp [SequenceBatch, nonEmptyBranch,
                              afterSequencing, hb, hd, hr, hemp, hmt, hrevF,
                              hsl, hlen, hu, hbn, hsn, hsg, hst, hc]

/-- C9 witness: a mismatched pair of lengths hits the panic branch of the
post-sequencing stage, a concrete `sequenceLeaves` run returns one number per
leaf, and a concrete run never panics. -/
theorem seqBatch_panic_unreachable_witness :
    (([] : NodeMap), [(0 : Int)], NewCompactMerkleTree).2.1.length ≠
      ([] : List LogLeaf).length ∧
    afterSequencing okEnv okTx freshRoot []
      (([] : NodeMap), [(0 : Int)], NewCompactMerkleTree) =
      (Outcome.panicked 1 0, []) ∧
    sequenceLeaves okEnv NewCompactMerkleTree [leafA] =
      Except.ok ([((0, (0 : Int)),
        { nodeID := (0, 0), hash := [5], nodeRevision := 0 })], [(0 : Int)],
        { size := 1, spine := [some [5]] }) ∧
    (([((0, (0 : Int)), { nodeID := (0, 0), hash := [5], nodeRevision := 0 })],
      [(0 : Int)], { size := 1, spine := [some [5]] }) :
        NodeMap × List Int × CompactMerkleTree).2.1.length =
      [leafA].length ∧
    (SequenceBatch okEnv 1 (fun _ => false)).1 ≠ Outcome.panicked 1 1 := by
  refine ⟨by simp, ?_, rfl, ?_, ?_⟩
  · exact seqBatch_panic_unreachable.1 okEnv okTx freshRoot [] _ (by simp)
  · exact seqBatch_panic_unreachable.2.1 okEnv NewCompactMerkleTree [leafA] _
      rfl
  · exact seqBatch_panic_unreachable.2.2 okEnv 1 (fun _ => false) 1 1

/-- C10: whenever `SequenceBatch` returns with a non-nil error the count is 0,
and a nonzero count happens only on the fully successful commit of a
non-empty batch, returning the number of dequeued leaves with the successful
commit as the last event. -/
theorem seqBatch_count (env : SeqEnv) (limit : Int)
    (f : SignedLogRoot → Bool) :
    (∀ (n : Int) (e : SeqError),
      (SequenceBatch env limit f).1 = Outcome.ret n (some e) → n = 0) ∧
    (∀ n : Int, (SequenceBatch env limit f).1 = Outcome.ret n none → n ≠ 0 →
      ∃ tx leaves, env.beginResult = Except.ok tx ∧
        tx.dequeueLeaves limit = Except.ok leaves ∧ leaves ≠ [] ∧
        n = (leaves.length : Int) ∧
        (SequenceBatch env limit f).2.getLast? = some (Ev.commit true)) := by
  rcases hb : env.beginResult with e | tx
  · constructor
    · intro n e2 h
      simp [SequenceBatch, hb] at h
      omega
    · intro n h hn
      simp [SequenceBatch, hb] at h
  · rcases hd : tx.dequeueLeaves limit with e | leaves
    · constructor
      · intro n e2 h
        simp [SequenceBatch, hb, hd] at h
        omega
      · intro n h hn
        simp [SequenceBatch, hb, hd] at h
    · rcases hr : tx.latestSignedLogRoot with e | cur
      · constructor
        · intro n e2 h
          simp [SequenceBatch, hb, hd, hr] at h
          omega
        · intro n h hn
          simp [SequenceBatch, hb, hd, hr] at h
      · cases hemp : leaves.isEmpty with
        | true =>
          cases hf : f cur with
          | true =>
            constructor
            · intro n e2 h
              simp [SequenceBatch, hb, hd, hr, hemp, hf] at h
              omega
            · intro n h hn
              simp [SequenceBatch, hb, hd, hr, hemp, hf] at h
              omega
          | false =>
            constructor
            · intro n e2 h
              simp [SequenceBatch, hb, hd, hr, hemp, hf] at h
            · intro n h hn
              simp [SequenceBatch, hb, hd, hr, hemp, hf] at h
              omega
        | false =>
          have hlne : leaves ≠ [] := by
            cases leaves with
            | nil => simp [List.isEmpty] at hemp
            | cons a as => simp
          rcases hmt : initMerkleTreeFromStorage env cur tx with e | mt
          · constructor
            · intro n e2 h
              simp [SequenceBatch, nonEmptyBranch, hb, hd, hr, hemp, hmt] at h
              omega
            · intro n h hn
              simp [SequenceBatch, nonEmptyBranch, hb, hd, hr, hemp, hmt] at h
          · by_cases hrev : tx.writeRevision = cur.treeRevision + 1
            case neg =>
              constructor
              · intro n e2 h
                simp [SequenceBatch, nonEmptyBranch, hb, hd, hr, hemp, hmt,
                  hrev] at h
                omega
              · intro n h hn
                simp [SequenceBatch, nonEmptyBranch, hb, hd, hr, hemp, hmt,
                  hrev] at h
            case pos =>
            have hrevF : ¬(tx.writeRevision ≠ cur.treeRevision + 1) := by
              simp [hrev]
            rcases hsl : sequenceLeaves env mt leaves with e | r
            · constructor
              · intro n e2 h
                simp [SequenceBatch, nonEmptyBranch, hb, hd, hr, hemp, hmt,
                  hrevF, hsl] at h
                omega
              · intro n h hn
                simp [SequenceBatch, nonEmptyBranch, hb, hd, hr, hemp, hmt,
                  hrevF, hsl] at h
            · have hlen := sequenceLeaves_ok_length env mt leaves r hsl
              rcases hu : tx.updateSequencedLeaves
                  (applySequenceNumbers leaves r.2.1) with e | u
              · constructor
                · intro n e2 h
                  simp [SequenceBatch, nonEmptyBranch, afterSequencing, hb,
                    hd, hr, hemp, hmt, hrevF, hsl, hlen, hu] at h
                  omega
                · intro n h hn
                  simp [SequenceBatch, nonEmptyBranch, afterSequencing, hb,
                    hd, hr, hemp, hmt, hrevF, hsl, hlen, hu] at h
              · rcases hbn : buildNodesFromNodeMap r.1 tx.writeRevision
                    with e | tns
                · exact absurd hbn (by simp [buildNodesFromNodeMap])
                · rcases hsn : tx.setMerkleNodes tns with e | u2
                  · constructor
                    · intro n e2 h
                      simp [SequenceBatch, nonEmptyBranch, afterSequencing,
                        hb, hd, hr, hemp, hmt, hrevF, hsl, hlen, hu, hbn,
                        hsn] at h
                      omega
                    · intro n h hn
                      simp [SequenceBatch, nonEmptyBranch, afterSequencing,
                        hb, hd, hr, hemp, hmt, hrevF, hsl, hlen, hu, hbn,
                        hsn] at h
                  · rcases hsg : env.sign
                        (newSTH env cur r.2.2 tx.writeRevision) with e | sig
                    · constructor
                      · intro n e2 h
                        simp [SequenceBatch, nonEmptyBranch, afterSequencing,
                          hb, hd, hr, hemp, hmt, hrevF, hsl, hlen, hu, hbn,
                          hsn, hsg] at h
                        omega
                      · intro n h hn
                        simp [SequenceBatch, nonEmptyBranch, afterSequencing,
                          hb, hd, hr, hemp, hmt, hrevF, hsl, hlen, hu, hbn,
                          hsn, hsg] at h
                    · rcases hst : tx.storeSignedLogRoot
                          { newSTH env cur r.2.2 tx.writeRevision with
                            signature := some sig } with e | u3
                      · constructor
                        · intro n e2 h
                          simp [SequenceBatch, nonEmptyBranch,
                            afterSequencing, hb, hd, hr, hemp, hmt, hrevF,
                            hsl, hlen, hu, hbn, hsn, hsg, hst] at h
                          omega
                        · intro n h hn
                          simp [SequenceBatch, nonEmptyBranch,
                            afterSequencing, hb, hd, hr, hemp, hmt, hrevF,
                            hsl, hlen, hu, hbn, hsn, hsg, hst] at h
                      · rcases hc : tx.commitResult with e | u4
                        · constructor
                          · intro n e2 h
                            simp [SequenceBatch, nonEmptyBranch,
                              afterSequencing, hb, hd, hr, hemp, hmt, hrevF,
                              hsl, hlen, hu, hbn, hsn, hsg, hst, hc] at h
                            omega
                          · intro n h hn
                            simp [SequenceBatch, nonEmptyBranch,
                              afterSequencing, hb, hd, hr, hemp, hmt, hrevF,
                              hsl, hlen, hu, hbn, hsn, hsg, hst, hc] at h
                        · constructor
                          · intro n e2 h
                            simp [SequenceBatch, nonEmptyBranch,
                              afterSequencing, hb, hd, hr, hemp, hmt, hrevF,
                              hsl, hlen, hu, hbn, hsn, hsg, hst, hc] at h
                          · intro n h hn
                            refine ⟨tx, leaves, rfl, hd, hlne, ?_, ?_⟩
                            · simp [SequenceBatch, nonEmptyBranch,
                                afterSequencing, hb, hd, hr, hemp, hmt, hrevF,
                                hsl, hlen, hu, hbn, hsn, hsg, hst, hc] at h
                              omega
                            · simp [SequenceBatch, nonEmptyBranch,
                                afterSequencing, hb, hd, hr, hemp, hmt, hrevF,
                                hsl, hlen, hu, hbn, hsn, hsg, hst, hc]

/-- C10 witness: the concrete successful run returns count 1 with error nil
and ends in a successful commit. -/
theorem seqBatch_count_witness :
    (SequenceBatch okEnv 1 (fun _ => false)).1 = Outcome.ret 1 none ∧
    (1 : Int) ≠ 0 ∧
    ∃ tx leaves, okEnv.beginResult = Except.ok tx ∧
      tx.dequeueLeaves 1 = Except.ok leaves ∧ leaves ≠ [] ∧
      (1 : Int) = (leaves.length : Int) ∧
      (SequenceBatch okEnv 1 (fun _ => false)).2.getLast? =
        some (Ev.commit true) := by
  refine ⟨rfl, by omega, ?_⟩
  exact (seqBatch_count okEnv 1 (fun _ => false)).2 1 rfl (by omega)

/-- C5 counterexample: in the empty-batch branch the commit result is
discarded: with a failing commit on an empty batch, `SequenceBatch` attempts
the commit, sees it fail, and still returns count 0 with a nil error. -/
theorem seqBatch_empty_commit_error_dropped :
    txEmptyCommitFail.commitResult = Except.error (SeqError.storage 3) ∧
    txEmptyCommitFail.dequeueLeaves 1 = Except.ok [] ∧
    SequenceBatch envEmptyCommitFail 1 (fun _ => false) =
      (Outcome.ret 0 none, [Ev.commit false]) :=
  ⟨rfl, rfl, rfl⟩

/-- C5 amended: a failure of the final commit after storing the new STH is
propagated to the caller, but in the empty-batch branch the commit result is
discarded and `SequenceBatch` returns a nil error. -/
theorem seqBatch_commit_propagation (env : SeqEnv) (limit : Int)
    (f : SignedLogRoot → Bool) (tx : TxEnv)
    (hb : env.beginResult = Except.ok tx) :
    (∀ (leaves : List LogLeaf) (cur : SignedLogRoot) (mt0 : CompactMerkleTree)
       (r : NodeMap × List Int × CompactMerkleTree) (targetNodes : List Node)
       (sig : Nat) (e : SeqError),
       tx.dequeueLeaves limit = Except.ok leaves → leaves ≠ [] →
       tx.latestSignedLogRoot = Except.ok cur →
       initMerkleTreeFromStorage env cur tx = Except.ok mt0 →
       tx.writeRevision = cur.treeRevision + 1 →
       sequenceLeaves env mt0 leaves = Except.ok r →
       tx.updateSequencedLeaves (applySequenceNumbers leaves r.2.1) =
         Except.ok () →
       buildNodesFromNodeMap r.1 tx.writeRevision = Except.ok targetNodes →
       tx.setMerkleNodes targetNodes = Except.ok () →
       env.sign (newSTH env cur r.2.2 tx.writeRevision) = Except.ok sig →
       tx.storeSignedLogRoot { newSTH env cur r.2.2 tx.writeRevision with
         signature := some sig } = Except.ok () →
       tx.commitResult = Except.error e →
       SequenceBatch env limit f = (Outcome.ret 0 (some e),
         [Ev.updateLeaves (applySequenceNumbers leaves r.2.1) true,
          Ev.setNodes targetNodes true,
          Ev.storeRoot { newSTH env cur r.2.2 tx.writeRevision with
            signature := some sig } true,
          Ev.commit false])) ∧
    (∀ (cur : SignedLogRoot) (e : SeqError),
       tx.dequeueLeaves limit = Except.ok [] →
       tx.latestSignedLogRoot = Except.ok cur →
       f cur = false →
       tx.commitResult = Except.error e →
       SequenceBatch env limit f = (Outcome.ret 0 none, [Ev.commit false])) := by
  constructor
  · intro leaves cur mt0 r targetNodes sig e hd hne hr hmt hrev hsl hu hbn hsn
      hsg hst hc
    have hemp : leaves.isEmpty = false := by
      cases leaves with
      | nil => exact absurd rfl hne
      | cons a as => rfl
    have hrevF : ¬(tx.writeRevision ≠ cur.treeRevision + 1) := by simp [hrev]
    have hlen := sequenceLeaves_ok_length env mt0 leaves r hsl
    simp [SequenceBatch, nonEmptyBranch, afterSequencing, hb, hd, hr, hemp,
      hmt, hrevF, hsl, hlen, hu, hbn, hsn, hsg, hst, hc]
  · intro cur e hd hr hf hc
    simp [SequenceBatch, hb, hd, hr, hf, hc]

/-- C5 witness: with a concrete environment whose final commit fails on a
non-empty batch the error is propagated, and with a concrete empty batch the
commit error is discarded. -/
theorem seqBatch_commit_propagation_witness :
    txCommitFail.commitResult = Except.error (SeqError.storage 3) ∧
    SequenceBatch envCommitFail 1 (fun _ => false) =
      (Outcome.ret 0 (some (SeqError.storage 3)),
        [Ev.updateLeaves [{ leafHash := [5], sequenceNumber := 0 }] true,
         Ev.setNodes [{ nodeID := (0, 0), hash := [5], nodeRevision := 1 }]
           true,
         Ev.storeRoot
           { logId := 7, rootHash := [5], timestampNanos := 99,
             treeSize := 1, treeRevision := 1, signature := some 7 } true,
         Ev.commit false]) ∧
    SequenceBatch envEmptyCommitFail 1 (fun _ => false) =
      (Outcome.ret 0 none, [Ev.commit false]) := by
  refine ⟨rfl, ?_, ?_⟩
  · have := (seqBatch_commit_propagation envCommitFail 1 (fun _ => false)
      txCommitFail rfl).1 [leafA] freshRoot NewCompactMerkleTree
      ([((0, (0 : Int)), { nodeID := (0, 0), hash := [5], nodeRevision := 0 })],
        [(0 : Int)], { size := 1, spine := [some [5]] })
      [{ nodeID := (0, 0), hash := [5], nodeRevision := 1 }] 7
      (SeqError.storage 3) rfl (by simp) rfl rfl rfl rfl rfl rfl rfl rfl rfl
      rfl
    simpa using this
  · exact (seqBatch_commit_propagation envEmptyCommitFail 1 (fun _ => false)
      txEmptyCommitFail rfl).2 freshRoot (SeqError.storage 3) rfl rfl rfl rfl

/-- C1 witness: a concrete environment whose dequeue fails is rolled back. -/
theorem seqBatch_failure_rolls_back_witness :
    failPointOf envDeqFail 1 = some FailPoint.dequeue ∧
    ∃ e tr, SequenceBatch envDeqFail 1 (fun _ => false) =
      (Outcome.ret 0 (some e), tr) ∧
      tr.getLast? = some Ev.rollback ∧ ∀ b, Ev.commit b ∉ tr :=
  ⟨rfl, seqBatch_failure_rolls_back envDeqFail 1 (fun _ => false)
    FailPoint.dequeue rfl⟩

theorem withState_size (h : TreeHasher) (size : Nat)
    (fetch : Nat → Int → Except SeqError Hash) (rootHash : Hash)
    (mt : CompactMerkleTree)
    (hok : NewCompactMerkleTreeWithState h size fetch rootHash =
      Except.ok mt) : mt.size = size := by
  rcases hh : hydrateLevels fetch size (List.range 64) with e | spine
  · simp [NewCompactMerkleTreeWithState, hh] at hok
  · simp only [NewCompactMerkleTreeWithState, hh] at hok
    split at hok
    · injection hok with h1
      subst h1
      rfl
    · exact absurd hok (by simp)

/-- C7: hydration of the compact tree succeeds only when `get_merkle_nodes`
returns exactly one node for every requested spine id; a response that is not
a singleton list produces the missing-node error, and a hydration failure
makes the calling sequencer operation (either `SequenceBatch` on a non-empty
batch or `SignRoot`) roll back and abort with that error. -/
theorem hydration_requires_singleton :
    (∀ (env : SeqEnv) (root : SignedLogRoot) (tx : TxEnv)
       (mt : CompactMerkleTree),
       buildMerkleTreeFromStorageAtRoot env root tx = Except.ok mt →
       ∀ l ∈ List.range 64, root.treeSize.toNat.testBit l = true →
         ∃ n, tx.getMerkleNodes root.treeRevision
           (l, spineIndex root.treeSize.toNat l) = Except.ok [n]) ∧
    (∀ (env : SeqEnv) (tx : TxEnv) (rev : Int) (d : Nat) (i : Int)
       (ns : List Node), env.mkNodeIDErr d i = none →
       tx.getMerkleNodes rev (d, i) = Except.ok ns → ns.length ≠ 1 →
       fetchHash env tx rev d i = Except.error (SeqError.missingNode d i)) ∧
    (∀ (env : SeqEnv) (limit : Int) (f : SignedLogRoot → Bool) (tx : TxEnv)
       (leaves : List LogLeaf) (cur : SignedLogRoot) (e : SeqError),
       env.beginResult = Except.ok tx →
       tx.dequeueLeaves limit = Except.ok leaves → leaves ≠ [] →
       tx.latestSignedLogRoot = Except.ok cur →
       initMerkleTreeFromStorage env cur tx = Except.error e →
       SequenceBatch env limit f = (Outcome.ret 0 (some e), [Ev.rollback])) ∧
    (∀ (env : SeqEnv) (tx : TxEnv) (cur : SignedLogRoot) (e : SeqError),
       env.beginResult2 = Except.ok tx →
       tx.latestSignedLogRoot = Except.ok cur →
       initMerkleTreeFromStorage env cur tx = Except.error e →
       SignRoot env = (some e, [Ev.rollback])) := by
  refine ⟨buildMerkle_ok_singleton, ?_, ?_, ?_⟩
  · intro env tx rev d i ns hmk hg hlen
    exact fetchHash_not_one env tx rev d i ns hmk hg hlen
  · intro env limit f tx leaves cur e hb hd hne hr hmt
    have hemp : leaves.isEmpty = false := by
      cases leaves with
      | nil => exact absurd rfl hne
      | cons a as => rfl
    simp [SequenceBatch, nonEmptyBranch, hb, hd, hr, hemp, hmt]
  · intro env tx cur e hb hr hmt
    simp [SignRoot, hb, hr, hmt]

/-- C7 witness: a one-leaf tree hydrates when the store returns exactly one
node per id; when it returns an empty list the hydration fails with the
missing-node error and both sequencer operations roll back. -/
theorem hydration_requires_singleton_witness :
    buildMerkleTreeFromStorageAtRoot envSize1 rootSize1 txSize1 =
      Except.ok { size := 1, spine := some [5] :: List.replicate 63 none } ∧
    (∃ n, txSize1.getMerkleNodes rootSize1.treeRevision
      (0, spineIndex rootSize1.treeSize.toNat 0) = Except.ok [n]) ∧
    envNoNodes.mkNodeIDErr 0 0 = none ∧
    txNoNodes.getMerkleNodes 3 (0, 0) = Except.ok [] ∧
    fetchHash envNoNodes txNoNodes 3 0 0 =
      Except.error (SeqError.missingNode 0 0) ∧
    initMerkleTreeFromStorage envNoNodes rootSize1 txNoNodes =
      Except.error (SeqError.missingNode 0 0) ∧
    SequenceBatch envNoNodes 1 (fun _ => false) =
      (Outcome.ret 0 (some (SeqError.missingNode 0 0)), [Ev.rollback]) ∧
    SignRoot envNoNodes = (some (SeqError.missingNode 0 0), [Ev.rollback]) := by
  refine ⟨rfl, ?_, rfl, rfl, ?_, rfl, ?_, ?_⟩
  · exact hydration_requires_singleton.1 envSize1 rootSize1 txSize1
      { size := 1, spine := some [5] :: List.replicate 63 none } rfl 0
      (by decide) (by decide)
  · exact hydration_requires_singleton.2.1 envNoNodes txNoNodes 3 0 0 [] rfl
      rfl (by decide)
  · exact hydration_requires_singleton.2.2.1 envNoNodes 1 (fun _ => false)
      txNoNodes [leafA] rootSize1 (SeqError.missingNode 0 0) rfl rfl (by simp)
      rfl rfl
  · exact hydration_requires_singleton.2.2.2 envNoNodes txNoNodes rootSize1
      (SeqError.missingNode 0 0) rfl rfl rfl

/-- C8: `SignRoot` stores an STH at the stored tree size with the revision
bumped by one and a signature present; on a fresh log (size 0, revision 0)
the hydrated tree is the fresh empty compact tree, so the stored STH has size
0, the empty-tree root hash, and revision 1. -/
theorem signRoot_sth (env : SeqEnv) (tx : TxEnv) (cur : SignedLogRoot)
    (mt : CompactMerkleTree) (sig : Nat)
    (hb : env.beginResult2 = Except.ok tx)
    (hr : tx.latestSignedLogRoot = Except.ok cur)
    (hmt : initMerkleTreeFromStorage env cur tx = Except.ok mt)
    (hsg : env.sign (newSTH env cur mt (cur.treeRevision + 1)) = Except.ok sig)
    (hst : tx.storeSignedLogRoot { newSTH env cur mt (cur.treeRevision + 1)
      with signature := some sig } = Except.ok ())
    (hsz : 0 ≤ cur.treeSize) :
    ∃ sth, Ev.storeRoot sth true ∈ (SignRoot env).2 ∧
      sth.treeRevision = cur.treeRevision + 1 ∧
      sth.treeSize = cur.treeSize ∧
      sth.signature = some sig ∧
      (cur.treeSize = 0 → sth.rootHash = env.hasher.emptyRoot) ∧
      (cur.treeRevision = 0 → sth.treeRevision = 1) := by
  have hms : mt.size = cur.treeSize.toNat := by
    by_cases h0 : cur.treeSize = 0
    · simp only [initMerkleTreeFromStorage, h0, if_true, Except.ok.injEq]
        at hmt
      rw [← hmt]
      simp [NewCompactMerkleTree, h0]
    · simp only [initMerkleTreeFromStorage, h0, if_false] at hmt
      exact withState_size env.hasher cur.treeSize.toNat
        (fetchHash env tx cur.treeRevision) cur.rootHash mt hmt
  refine ⟨{ newSTH env cur mt (cur.treeRevision + 1) with
    signature := some sig }, ?_, by simp [newSTH], ?_, by simp, ?_, ?_⟩
  · rcases hc : tx.commitResult with e | u
    · simp [SignRoot, hb, hr, hmt, hsg, hst, hc]
    · simp [SignRoot, hb, hr, hmt, hsg, hst, hc]
  · simp only [newSTH]
    rw [hms]
    omega
  · intro h0
    have hmt0 : mt = NewCompactMerkleTree := by
      simp only [initMerkleTreeFromStorage, h0, if_true, Except.ok.injEq]
        at hmt
      exact hmt.symm
    simp [newSTH, hmt0, CompactMerkleTree.currentRoot, NewCompactMerkleTree]
  · intro hrev0
    simp [newSTH, hrev0]

/-- C8 witness: signing a root over a concrete fresh log stores an STH with
size 0, the empty root and revision 1. -/
theorem signRoot_sth_witness :
    okEnv.beginResult2 = Except.ok okTx ∧
    okTx.latestSignedLogRoot = Except.ok freshRoot ∧
    initMerkleTreeFromStorage okEnv freshRoot okTx =
      Except.ok NewCompactMerkleTree ∧
    (∃ sth, Ev.storeRoot sth true ∈ (SignRoot okEnv).2 ∧
      sth.treeRevision = freshRoot.treeRevision + 1 ∧
      sth.treeSize = freshRoot.treeSize ∧
      sth.signature = some 7 ∧
      (freshRoot.treeSize = 0 → sth.rootHash = okEnv.hasher.emptyRoot) ∧
      (freshRoot.treeRevision = 0 → sth.treeRevision = 1)) := by
  refine ⟨rfl, rfl, rfl, ?_⟩
  exact signRoot_sth okEnv okTx freshRoot NewCompactMerkleTree 7 rfl rfl rfl
    rfl rfl (by decide)

/-- C6 counterexample: during sequencing of two leaves the second append
emits the interior node (1, 0), the environment fails to construct its node
id, and `sequenceLeaves` still returns successfully with that node absent
from the node map: the error is silently dropped, not surfaced. -/
theorem sequenceLeaves_emit_error_dropped :
    envNodeIDFail.mkNodeIDErr 1 0 = some (SeqError.nodeIDFail 9) ∧
    ((NewCompactMerkleTree.addLeafHash envNodeIDFail.hasher
      leafA.leafHash).1.addLeafHash envNodeIDFail.hasher leafB.leafHash).2.2 =
      [(1, 0, [1, 5, 6])] ∧
    sequenceLeaves envNodeIDFail NewCompactMerkleTree [leafA, leafB] =
      Except.ok
        ([((0, (1 : Int)),
            { nodeID := (0, 1), hash := [6], nodeRevision := 0 }),
          ((0, (0 : Int)),
            { nodeID := (0, 0), hash := [5], nodeRevision := 0 })],
         [0, 1], { size := 2, spine := [none, some [1, 5, 6]] }) ∧
    mapLookup
      [((0, (1 : Int)), { nodeID := (0, 1), hash := [6], nodeRevision := 0 }),
       ((0, (0 : Int)), { nodeID := (0, 0), hash := [5], nodeRevision := 0 })]
      (1, 0) = none :=
  ⟨rfl, rfl, rfl, rfl⟩

/-- C6 amended: when node-id construction succeeds everywhere, every triple
emitted by append is buffered into the node map keyed by its id, and each
appended leaf gets a leaf-level node holding its leaf hash; an error
constructing the leaf-level node id is surfaced, but an error constructing
the id of an emitted triple makes the emit callback skip that node update
without surfacing the error. -/
theorem sequenceLeaves_buffers_emits :
    (∀ env : SeqEnv, (∀ d i, env.mkNodeIDErr d i = none) →
      ∀ (mt : CompactMerkleTree) (leaves : List LogLeaf)
        (r : NodeMap × List Int × CompactMerkleTree),
        sequenceLeaves env mt leaves = Except.ok r →
        ∀ t ∈ emitsDuring env.hasher mt leaves,
          ∃ nd, mapLookup r.1 (t.1, t.2.1) = some nd ∧
            nd.nodeID = (t.1, t.2.1)) ∧
    (∀ (env : SeqEnv) (mt : CompactMerkleTree) (leaves : List LogLeaf)
       (r : NodeMap × List Int × CompactMerkleTree),
       sequenceLeaves env mt leaves = Except.ok r →
       ∀ (i : Nat) (hi : i < leaves.length),
         mapLookup r.1 (0, ((mt.size + i : Nat) : Int)) =
           some { nodeID := (0, ((mt.size + i : Nat) : Int))
                  hash := leaves[i].leafHash
                  nodeRevision := 0 }) ∧
    (∀ (env : SeqEnv) (mt : CompactMerkleTree) (leaf : LogLeaf)
       (rest : List LogLeaf) (e : SeqError),
       env.mkNodeIDErr 0 (mt.size : Int) = some e →
       sequenceLeaves env mt (leaf :: rest) = Except.error e) ∧
    (∀ (env : SeqEnv) (m : NodeMap) (d : Nat) (i : Int) (h : Hash)
       (rest : List (Nat × Int × Hash)) (e : SeqError),
       env.mkNodeIDErr d i = some e →
       bufferEmits env m ((d, i, h) :: rest) = bufferEmits env m rest) := by
  refine ⟨?_, ?_, ?_, ?_⟩
  · intro env hok mt leaves r hsl t ht
    have hnn := sequenceLeavesAux_mem_emits env hok leaves mt [] [] r hsl t ht
    have hid := sequenceLeavesAux_idOk env leaves mt [] [] r hsl
      (by intro kk nd hkk; simp [mapLookup] at hkk)
    rcases hnd : mapLookup r.1 (t.1, t.2.1) with _ | nd
    · exact absurd hnd hnn
    · exact ⟨nd, rfl, hid (t.1, t.2.1) nd hnd⟩
  · intro env mt leaves r hsl i hi
    exact sequenceLeavesAux_leaf_lookup env leaves mt [] [] r hsl i hi
  · intro env mt leaf rest e hmk
    simp [sequenceLeaves, sequenceLeavesAux, CompactMerkleTree.addLeafHash,
      hmk]
  · intro env m d i h rest e hmk
    simp [bufferEmits, hmk]

/-- C6 witness: concrete instances of the four amended facts, including the
buffered interior node (1, 0) of a two-leaf batch and the surfaced leaf-id
error. -/
theorem sequenceLeaves_buffers_emits_witness :
    (∀ d i, okEnv.mkNodeIDErr d i = none) ∧
    sequenceLeaves okEnv NewCompactMerkleTree [leafA, leafB] =
      Except.ok
        ([((0, (1 : Int)),
            { nodeID := (0, 1), hash := [6], nodeRevision := 0 }),
          ((1, (0 : Int)),
            { nodeID := (1, 0), hash := [1, 5, 6], nodeRevision := 0 }),
          ((0, (0 : Int)),
            { nodeID := (0, 0), hash := [5], nodeRevision := 0 })],
         [0, 1], { size := 2, spine := [none, some [1, 5, 6]] }) ∧
    (1, (0 : Int), ([1, 5, 6] : Hash)) ∈
      emitsDuring okEnv.hasher NewCompactMerkleTree [leafA, leafB] ∧
    (∃ nd, mapLookup
      [((0, (1 : Int)), { nodeID := (0, 1), hash := [6], nodeRevision := 0 }),
       ((1, (0 : Int)),
         { nodeID := (1, 0), hash := [1, 5, 6], nodeRevision := 0 }),
       ((0, (0 : Int)), { nodeID := (0, 0), hash := [5], nodeRevision := 0 })]
      (1, 0) = some nd ∧ nd.nodeID = (1, 0)) ∧
    envLeafIDFail.mkNodeIDErr 0 ((NewCompactMerkleTree.size : Nat) : Int) =
      some (SeqError.nodeIDFail 4) ∧
    sequenceLeaves envLeafIDFail NewCompactMerkleTree [leafA] =
      Except.error (SeqError.nodeIDFail 4) ∧
    envNodeIDFail.mkNodeIDErr 1 0 = some (SeqError.nodeIDFail 9) ∧
    bufferEmits envNodeIDFail [] [(1, 0, [9]), (2, 0, [8])] =
      bufferEmits envNodeIDFail [] [(2, 0, [8])] := by
  refine ⟨fun d i => rfl, rfl, by decide, ?_, rfl, ?_, rfl, ?_⟩
  · exact sequenceLeaves_buffers_emits.1 okEnv (fun d i => rfl)
      NewCompactMerkleTree [leafA, leafB] _ rfl (1, (0 : Int), [1, 5, 6])
      (by decide)
  · exact sequenceLeaves_buffers_emits.2.2.1 envLeafIDFail
      NewCompactMerkleTree leafA [] (SeqError.nodeIDFail 4) rfl
  · exact sequenceLeaves_buffers_emits.2.2.2 envNodeIDFail [] 1 0 [9]
      [(2, 0, [8])] (SeqError.nodeIDFail 9) rfl

end Trillian
